import Mathlib

/-!
Verification of the fit-to-window image display logic of `src/window.rs`
(`display_image` and its inner helper `create_display_image`).

The Rust code computes its scale factors in IEEE-754 binary32 (`f32`)
arithmetic.  We model the `f32` values that can occur in this program
exactly: every float appearing in `display_image` is nonnegative (they are
`u32` values converted to `f32`, quotients and products of such values, and
the constant `2.0`), so a value is either NaN, +infinity, or a nonnegative
finite number represented exactly as a significand `m : ℕ` together with a
binary exponent `e : ℤ` (value `m * 2^e`).  Rounding is round-to-nearest,
ties-to-even, exactly as IEEE-754 prescribes; `u32 as f32` rounds to
nearest, and float-to-integer casts (`as u32`, `as i32`) truncate toward
zero and saturate, with NaN mapped to 0, which is Rust `as`-cast semantics.

All operations are executable over ℕ/ℤ so that concrete runs of the model
can be checked by `decide`; the rational value `m * 2^e : ℚ` is used only in
the correctness lemmas.
-/

/-- Floor of the base-2 logarithm of a natural number, by structural
recursion on a fuel argument (so that it reduces in the kernel).
`log2fuel f n` is correct whenever `n ≤ 2^f`. -/
def log2fuel : ℕ → ℕ → ℕ
  | 0, _ => 0
  | f + 1, n => if n ≥ 2 then log2fuel f (n / 2) + 1 else 0

/-- Floor of the base-2 logarithm of a positive natural number. -/
def log2n (n : ℕ) : ℕ := log2fuel n n

/-- Round-to-nearest, ties-to-even, of the ratio `num / den` (for `den > 0`)
to a natural number. -/
def rneNat (num den : ℕ) : ℕ :=
  if 2 * (num % den) < den then num / den
  else if den < 2 * (num % den) then num / den + 1
  else if (num / den) % 2 = 0 then num / den else num / den + 1

/-- Decides whether `(a / b) * 2^k ≥ 1`, i.e. `a * 2^k ≥ b`, for `b > 0`. -/
def ratioGE (a b : ℕ) (k : ℤ) : Bool :=
  if 0 ≤ k then b ≤ a * 2 ^ k.toNat else b * 2 ^ (-k).toNat ≤ a

/-- Floor of the base-2 logarithm of `(a / b) * 2^e`, for `a, b ≥ 1`. -/
def ratioExp (a b : ℕ) (e : ℤ) : ℤ :=
  let E0 : ℤ := (log2n a : ℤ) - (log2n b : ℤ) + e
  if ratioGE a b (e - E0) then E0 else E0 - 1

/-- A scaled numerator/denominator pair representing `a * 2^k` as a ratio of
natural numbers. -/
def scaledNum (a : ℕ) (k : ℤ) : ℕ × ℕ :=
  if 0 ≤ k then (a * 2 ^ k.toNat, 1) else (a, 2 ^ (-k).toNat)

/-- The `f32` values reachable in this program: NaN, +infinity, or a
nonnegative finite value `m * 2^e`.  Finite values produced by `roundQuot`
are kept in IEEE canonical form (normal: `2^23 ≤ m < 2^24` with
`-149 ≤ e ≤ 104`; subnormal or zero: `m < 2^23` with `e = -149`). -/
inductive F32 where
  | nan : F32
  | inf : F32
  | fin : ℕ → ℤ → F32
deriving DecidableEq, Repr

/-- The exact rational value of a finite `F32`. -/
def finVal (m : ℕ) (e : ℤ) : ℚ := (m : ℚ) * 2 ^ e

/-- Round the exact nonnegative rational `(a / b) * 2^e` (with `b > 0`) to
binary32 by round-to-nearest, ties-to-even: overflow to infinity at `2^128`,
gradual underflow on the subnormal grid `2^-149`, ties to even
significand. -/
def roundQuot (a b : ℕ) (e : ℤ) : F32 :=
  if a = 0 then .fin 0 (-149)
  else
    let E := ratioExp a b e
    if 128 ≤ E then .inf
    else
      let G := max (E - 23) (-149)
      let p := scaledNum a (e - G)
      let m := rneNat p.1 (p.2 * b)
      if m = 2 ^ 24 then
        if E = 127 then .inf else .fin (2 ^ 23) (G + 1)
      else .fin m G

/-- Conversion `u32 as f32` (round to nearest, ties to even). -/
def F32.ofNat (n : ℕ) : F32 := roundQuot n 1 0

/-- IEEE binary32 division restricted to the nonnegative fragment:
`x / 0` is +infinity for finite positive `x`, `0 / 0` and operations on NaN
are NaN, `inf / inf` is NaN, `x / inf` is zero. -/
def F32.div : F32 → F32 → F32
  | .nan, _ => .nan
  | _, .nan => .nan
  | .inf, .inf => .nan
  | .inf, .fin _ _ => .inf
  | .fin _ _, .inf => .fin 0 (-149)
  | .fin m1 e1, .fin m2 e2 =>
    if m2 = 0 then (if m1 = 0 then .nan else .inf)
    else roundQuot m1 m2 (e1 - e2)

/-- IEEE binary32 multiplication restricted to the nonnegative fragment:
`inf * 0` is NaN, `inf * x` is infinity for `x > 0` or `x = inf`. -/
def F32.mul : F32 → F32 → F32
  | .nan, _ => .nan
  | _, .nan => .nan
  | .inf, .inf => .inf
  | .inf, .fin m _ => if m = 0 then .nan else .inf
  | .fin m _, .inf => if m = 0 then .nan else .inf
  | .fin m1 e1, .fin m2 e2 => roundQuot (m1 * m2) 1 (e1 + e2)

/-- Comparison of the exact values `m1 * 2^e1 < m2 * 2^e2` by shifting. -/
def dyadicLT (m1 : ℕ) (e1 : ℤ) (m2 : ℕ) (e2 : ℤ) : Bool :=
  if e1 ≤ e2 then m1 < m2 * 2 ^ (e2 - e1).toNat else m1 * 2 ^ (e1 - e2).toNat < m2

/-- IEEE `<` on the nonnegative fragment: any comparison with NaN is false. -/
def F32.lt : F32 → F32 → Bool
  | .nan, _ => false
  | _, .nan => false
  | .inf, _ => false
  | .fin _ _, .inf => true
  | .fin m1 e1, .fin m2 e2 => dyadicLT m1 e1 m2 e2

/-- Truncation toward zero of the value `m * 2^e` to a natural number. -/
def dyadicTrunc (m : ℕ) (e : ℤ) : ℕ :=
  if 0 ≤ e then m * 2 ^ e.toNat else m / 2 ^ (-e).toNat

/-- Rust `f32 as u32`: truncate toward zero, saturate to `[0, 2^32 - 1]`,
NaN to 0 (the model has no negative finite values). -/
def F32.toU32 : F32 → ℕ
  | .nan => 0
  | .inf => 2 ^ 32 - 1
  | .fin m e => min (dyadicTrunc m e) (2 ^ 32 - 1)

/-- Rust `f32 as i32`: truncate toward zero, saturate to `[-2^31, 2^31 - 1]`,
NaN to 0 (the model has no negative finite values). -/
def F32.toI32 : F32 → ℤ
  | .nan => 0
  | .inf => 2 ^ 31 - 1
  | .fin m e => min (dyadicTrunc m e : ℤ) (2 ^ 31 - 1)

/-!
The program embedding.  `display_image` in `src/window.rs` clamps the
requested window size to the 150×150 minimum, computes the fitted display
image with the inner function `create_display_image`, centers it with
`(window_dim - image_dim) as f32 / 2.0 as i32` offsets, and then loops over
SDL events, recomputing the fitted image and the offsets on every
`WindowEvent::Resized(x, y)` (whose `i32` payload it converts to `u32` with
a wrapping `as` cast) and terminating on quit or Escape.
-/

/-- An RGBA image: width, height, and the pixel bytes as a function of the
flat byte index (row-major, 4 bytes per pixel, only indices below
`4 * width * height` are meaningful). -/
structure RgbaImage where
  width : ℕ
  height : ℕ
  data : ℕ → ℕ

/-- Modelled from the spec: the external image crate's
`image::imageops::resize` with the `Triangle` filter is not part of this
repository.  Per the spec (§4.2) the design constrains only that the output
buffer has exactly `out_width × out_height` pixels and that when the
dimensions are unchanged the fitted image is a direct copy of the source;
the pixel content of a genuine resample is otherwise unconstrained and is
modelled as zeroed. -/
def resize (img : RgbaImage) (out_width out_height : ℕ) : RgbaImage :=
  if out_width = img.width ∧ out_height = img.height then img
  else ⟨out_width, out_height, fun _ => 0⟩

/-- The dimension computation of `create_display_image`
(src/window.rs lines 32–51): if the image is strictly smaller than the
window in both dimensions it is kept; otherwise the `f32` scale factors
`window_width / image.width` and `window_height / image.height` are
computed, the smaller one is selected, and the output dimensions are the
`f32` products `scale * dimension` cast to `u32`. -/
def create_display_image_dims (image_width image_height window_width window_height : ℕ) :
    ℕ × ℕ :=
  if image_height < window_height ∧ image_width < window_width then
    (image_width, image_height)
  else
    let width_scale := F32.div (F32.ofNat window_width) (F32.ofNat image_width)
    let height_scale := F32.div (F32.ofNat window_height) (F32.ofNat image_height)
    let scale := if F32.lt width_scale height_scale then width_scale else height_scale
    let height := (F32.mul scale (F32.ofNat image_height)).toU32
    let width := (F32.mul scale (F32.ofNat image_width)).toU32
    (width, height)

/-- `create_display_image` (src/window.rs lines 27–52): returns the fitted
width, height and image; the strictly-smaller branch clones the source, the
other branch resamples it to the computed dimensions. -/
def create_display_image (image : RgbaImage) (window_width window_height : ℕ) :
    ℕ × ℕ × RgbaImage :=
  if image.height < window_height ∧ image.width < window_width then
    (image.width, image.height, image)
  else
    let dims := create_display_image_dims image.width image.height window_width window_height
    (dims.1, dims.2, resize image dims.1 dims.2)

/-- Minimum window dimension (src/window.rs line 13). -/
def MIN_WINDOW_DIMENSION : ℕ := 150

/-- The per-axis clamp applied to the requested window dimensions at the
start of `display_image` (src/window.rs lines 15–24). -/
def effectiveDim (requested : ℕ) : ℕ :=
  if requested < MIN_WINDOW_DIMENSION then MIN_WINDOW_DIMENSION else requested

/-- The centering offset `((window_dim - image_dim) as f32 / 2.0_f32) as i32`
(src/window.rs lines 93–94 and 146–147).  The `u32` subtraction wraps
modulo `2^32` (release-mode semantics), the difference is converted to
`f32`, halved in `f32`, and truncated to `i32`. -/
def centerOffset (window_dim image_dim : ℕ) : ℤ :=
  (F32.div (F32.ofNat ((window_dim + 2 ^ 32 - image_dim) % 2 ^ 32)) (F32.ofNat 2)).toI32

/-- The render-relevant state of the display session: the window dimensions
used for the last layout, the fitted image dimensions, the texture contents,
and the centering offsets of the last `canvas.copy`. -/
structure DisplayState where
  winW : ℕ
  winH : ℕ
  imgW : ℕ
  imgH : ℕ
  texture : RgbaImage
  offX : ℤ
  offY : ℤ

/-- Fit the source image to the given window dimensions and render it
centered: the common computation performed at session start
(src/window.rs lines 54–110) and in the `Resized` event arm
(lines 121–157). -/
def renderState (image : RgbaImage) (window_width window_height : ℕ) : DisplayState :=
  let fitted := create_display_image image window_width window_height
  ⟨window_width, window_height, fitted.1, fitted.2.1, fitted.2.2,
    centerOffset window_width fitted.1, centerOffset window_height fitted.2.1⟩

/-- The initial state of `display_image`: both requested dimensions are
clamped to the 150 minimum before the first fit and render. -/
def initState (image : RgbaImage) (requested_width requested_height : ℕ) : DisplayState :=
  renderState image (effectiveDim requested_width) (effectiveDim requested_height)

/-- The SDL events distinguished by the event loop; `Resized` carries the
signed 32-bit window dimensions reported by SDL. -/
inductive SdlEvent where
  | quit : SdlEvent
  | keyDownEscape : SdlEvent
  | resized : ℤ → ℤ → SdlEvent
  | other : SdlEvent

/-- One step of the event loop (src/window.rs lines 114–160): quit and
Escape terminate (`none`); `Resized(x, y)` converts `x` and `y` to `u32`
with wrapping `as` casts and re-runs the fit-and-render computation against
the source image; other events leave the state unchanged. -/
def step (image : RgbaImage) (s : DisplayState) : SdlEvent → Option DisplayState
  | .quit => none
  | .keyDownEscape => none
  | .resized x y =>
    some (renderState image (x % 2 ^ 32).toNat (y % 2 ^ 32).toNat)
  | .other => some s

/-- The exact rational value of a finite `F32`, `none` for NaN and
infinity. -/
def F32.val? : F32 → Option ℚ
  | .nan => none
  | .inf => none
  | .fin m e => some (finVal m e)

/-- A small 100×80 test image (every byte 7). -/
def testImage : RgbaImage := ⟨100, 80, fun _ => 7⟩

/-- The 1000×500 source image of the spec's worked scenario. -/
def scenarioImage : RgbaImage := ⟨1000, 500, fun _ => 0⟩

/-- A 1×1 test image. -/
def oneByOneImage : RgbaImage := ⟨1, 1, fun _ => 0⟩

/-- A 16777219×1 (2^24 + 3 pixels wide) test image; 16777219 is the smallest
width whose `u32 as f32` conversion rounds upward. -/
def wideImage : RgbaImage := ⟨16777219, 1, fun _ => 0⟩

/-!
Correctness lemmas for the binary32 rounding model: bracketing of the
computed exponent, the half-ulp property of round-to-nearest, exactness on
representable values, and the resulting relative-error bound of one unit in
the twenty-fourth bit.
-/

lemma log2fuel_spec : ∀ (f n : ℕ), 1 ≤ n → n ≤ 2 ^ f →
    2 ^ log2fuel f n ≤ n ∧ n < 2 ^ (log2fuel f n + 1) := by
  intro f
  induction f with
  | zero =>
    intro n h1 h2
    simp only [pow_zero] at h2
    have : n = 1 := le_antisymm h2 h1
    subst this
    simp [log2fuel]
  | succ f ih =>
    intro n h1 h2
    by_cases h : n ≥ 2
    · have hrec := ih (n / 2) (by omega) (by
        have := Nat.div_le_div_right (c := 2) h2
        simpa [Nat.pow_succ, Nat.mul_div_cancel] using this)
      simp only [log2fuel, if_pos h]
      constructor
      · have he : 2 ^ (log2fuel f (n / 2) + 1) = 2 * 2 ^ log2fuel f (n / 2) := by ring
        rw [he]
        omega
      · have h2' : n / 2 < 2 ^ (log2fuel f (n / 2) + 1) := hrec.2
        have he : 2 ^ (log2fuel f (n / 2) + 1 + 1) = 2 * 2 ^ (log2fuel f (n / 2) + 1) := by ring
        rw [he]
        omega
    · have : n = 1 := by omega
      subst this
      simp [log2fuel, h]

lemma log2n_spec (n : ℕ) (h : 1 ≤ n) : 2 ^ log2n n ≤ n ∧ n < 2 ^ (log2n n + 1) :=
  log2fuel_spec n n h (Nat.lt_two_pow n).le

lemma rneNat_spec (num den : ℕ) (h : 0 < den) :
    2 * rneNat num den * den ≤ 2 * num + den ∧ 2 * num ≤ 2 * rneNat num den * den + den := by
  have hmod : den * (num / den) + num % den = num := Nat.div_add_mod num den
  have hlt : num % den < den := Nat.mod_lt _ h
  unfold rneNat
  generalize hq : num / den = q at *
  generalize hr : num % den = r at *
  subst hmod
  split_ifs <;> constructor <;> nlinarith

lemma rneNat_exact (num den : ℕ) (h : 0 < den) (hdvd : den ∣ num) :
    rneNat num den = num / den := by
  obtain ⟨c, rfl⟩ := hdvd
  unfold rneNat
  rw [Nat.mul_mod_right]
  simp [h]

lemma rneNat_rat (num den : ℕ) (h : 0 < den) :
    (num : ℚ) / den - 1/2 ≤ rneNat num den ∧ (rneNat num den : ℚ) ≤ num / den + 1/2 := by
  obtain ⟨h1, h2⟩ := rneNat_spec num den h
  have hd : (0 : ℚ) < den := by exact_mod_cast h
  have h1' : (2 * (rneNat num den) * den : ℚ) ≤ 2 * num + den := by exact_mod_cast h1
  have h2' : (2 * (num : ℚ)) ≤ 2 * (rneNat num den) * den + den := by exact_mod_cast h2
  constructor
  · rw [sub_le_iff_le_add, div_le_iff₀ hd]
    nlinarith
  · rw [← sub_le_iff_le_add, le_div_iff₀ hd]
    nlinarith

lemma two_q_ne : (2 : ℚ) ≠ 0 := by norm_num

lemma two_zpow_pos (k : ℤ) : (0 : ℚ) < 2 ^ k := zpow_pos (by norm_num) k

lemma two_zpow_toNat (k : ℤ) (h : 0 ≤ k) : (2 : ℚ) ^ k = (2 : ℚ) ^ k.toNat := by
  rw [← zpow_natCast, Int.toNat_of_nonneg h]

lemma two_zpow_mul (m n : ℤ) : (2 : ℚ) ^ m * 2 ^ n = 2 ^ (m + n) :=
  (zpow_add₀ two_q_ne m n).symm

lemma ratioGE_iff (a b : ℕ) (k : ℤ) :
    ratioGE a b k = true ↔ (b : ℚ) ≤ (a : ℚ) * 2 ^ k := by
  unfold ratioGE
  split_ifs with hk
  · rw [decide_eq_true_iff, two_zpow_toNat k hk]
    constructor
    · intro h
      exact_mod_cast h
    · intro h
      exact_mod_cast h
  · push_neg at hk
    rw [decide_eq_true_iff]
    have hpos : (0 : ℚ) < (2 : ℚ) ^ (-k).toNat := by positivity
    have hcast : (2 : ℚ) ^ k = ((2 : ℚ) ^ (-k).toNat)⁻¹ := by
      rw [← two_zpow_toNat (-k) (by omega), ← zpow_neg, neg_neg]
    rw [hcast, ← div_eq_mul_inv, le_div_iff₀ hpos]
    constructor
    · intro h
      exact_mod_cast h
    · intro h
      exact_mod_cast h

lemma ratioExp_bracket (a b : ℕ) (e : ℤ) (ha : 1 ≤ a) (hb : 1 ≤ b) :
    (2 : ℚ) ^ ratioExp a b e ≤ (a : ℚ) / b * 2 ^ e ∧
      (a : ℚ) / b * 2 ^ e < 2 ^ (ratioExp a b e + 1) := by
  obtain ⟨ha1, ha2⟩ := log2n_spec a ha
  obtain ⟨hb1, hb2⟩ := log2n_spec b hb
  have hbq : (0 : ℚ) < b := by exact_mod_cast hb
  have ha1' : ((2 : ℚ) ^ log2n a) ≤ a := by exact_mod_cast ha1
  have ha2' : (a : ℚ) < 2 ^ (log2n a + 1) := by exact_mod_cast ha2
  have hb1' : ((2 : ℚ) ^ log2n b) ≤ b := by exact_mod_cast hb1
  have hb2' : (b : ℚ) < 2 ^ (log2n b + 1) := by exact_mod_cast hb2
  set la : ℤ := (log2n a : ℤ) with hla
  set lb : ℤ := (log2n b : ℤ) with hlb
  set E0 : ℤ := la - lb + e with hE0
  have hza : (2 : ℚ) ^ la = 2 ^ log2n a := by rw [hla, zpow_natCast]
  have hza1 : (2 : ℚ) ^ (la + 1) = 2 ^ (log2n a + 1) := by
    rw [hla, show ((log2n a : ℤ) + 1) = ((log2n a + 1 : ℕ) : ℤ) by push_cast; ring, zpow_natCast]
  have hzb : (2 : ℚ) ^ lb = 2 ^ log2n b := by rw [hlb, zpow_natCast]
  have hzb1 : (2 : ℚ) ^ (lb + 1) = 2 ^ (log2n b + 1) := by
    rw [hlb, show ((log2n b : ℤ) + 1) = ((log2n b + 1 : ℕ) : ℤ) by push_cast; ring, zpow_natCast]
  have hupper : (a : ℚ) / b * 2 ^ e < 2 ^ (E0 + 1) := by
    rw [div_mul_eq_mul_div, div_lt_iff₀ hbq]
    calc (a : ℚ) * 2 ^ e < 2 ^ (la + 1) * 2 ^ e := by
          apply mul_lt_mul_of_pos_right _ (two_zpow_pos e)
          rw [hza1]; exact ha2'
      _ = 2 ^ (E0 + 1) * 2 ^ lb := by
          rw [two_zpow_mul, two_zpow_mul]; congr 1; omega
      _ ≤ 2 ^ (E0 + 1) * b := by
          apply mul_le_mul_of_nonneg_left _ (le_of_lt (two_zpow_pos _))
          rw [hzb]; exact hb1'
  have hlower : (2 : ℚ) ^ (E0 - 1) < (a : ℚ) / b * 2 ^ e := by
    rw [div_mul_eq_mul_div, lt_div_iff₀ hbq]
    calc (2 : ℚ) ^ (E0 - 1) * b < 2 ^ (E0 - 1) * 2 ^ (lb + 1) := by
          apply mul_lt_mul_of_pos_left _ (two_zpow_pos _)
          rw [hzb1]; exact hb2'
      _ = 2 ^ la * 2 ^ e := by
          rw [two_zpow_mul, two_zpow_mul]; congr 1; omega
      _ ≤ (a : ℚ) * 2 ^ e := by
          apply mul_le_mul_of_nonneg_right _ (le_of_lt (two_zpow_pos e))
          rw [hza]; exact ha1'
  unfold ratioExp
  rw [show (log2n a : ℤ) - (log2n b : ℤ) + e = E0 from rfl]
  by_cases hge : ratioGE a b (e - E0) = true
  · rw [if_pos hge]
    rw [ratioGE_iff a b _] at hge
    refine ⟨?_, hupper⟩
    rw [div_mul_eq_mul_div, le_div_iff₀ hbq]
    calc (2 : ℚ) ^ E0 * b ≤ 2 ^ E0 * ((a : ℚ) * 2 ^ (e - E0)) := by
          apply mul_le_mul_of_nonneg_left hge (le_of_lt (two_zpow_pos _))
      _ = (a : ℚ) * 2 ^ e := by
          rw [mul_comm ((2:ℚ) ^ E0), mul_assoc, two_zpow_mul,
            show e - E0 + E0 = e by ring]
  · rw [if_neg hge]
    have hlt : (a : ℚ) * 2 ^ (e - E0) < b := by
      by_contra hcon
      push_neg at hcon
      exact hge ((ratioGE_iff a b _).2 hcon)
    refine ⟨le_of_lt hlower, ?_⟩
    have hE : (E0 - 1 + 1 : ℤ) = E0 := by ring
    rw [hE]
    rw [div_mul_eq_mul_div, div_lt_iff₀ hbq]
    calc (a : ℚ) * 2 ^ e = ((a : ℚ) * 2 ^ (e - E0)) * 2 ^ E0 := by
          rw [mul_assoc, two_zpow_mul, show e - E0 + E0 = e by ring]
      _ < (b : ℚ) * 2 ^ E0 := mul_lt_mul_of_pos_right hlt (two_zpow_pos _)
      _ = 2 ^ E0 * b := by ring

lemma scaledNum_spec (a : ℕ) (k : ℤ) :
    ((scaledNum a k).1 : ℚ) = (a : ℚ) * 2 ^ k * ((scaledNum a k).2 : ℚ) ∧
      0 < (scaledNum a k).2 := by
  unfold scaledNum
  split_ifs with hk
  · refine ⟨?_, one_pos⟩
    push_cast
    rw [two_zpow_toNat k hk]
    ring
  · refine ⟨?_, by positivity⟩
    push_cast
    rw [← two_zpow_toNat (-k) (by omega), mul_assoc, two_zpow_mul,
      show k + -k = 0 by ring, zpow_zero, mul_one]

lemma roundQuot_reduce (a b : ℕ) (e : ℤ) (hane : a ≠ 0)
    (hlo : -126 ≤ ratioExp a b e) (hhi : ratioExp a b e ≤ 126) :
    roundQuot a b e =
      (if rneNat (scaledNum a (e - (ratioExp a b e - 23))).1
          ((scaledNum a (e - (ratioExp a b e - 23))).2 * b) = 2 ^ 24
        then F32.fin (2 ^ 23) (ratioExp a b e - 23 + 1)
        else F32.fin (rneNat (scaledNum a (e - (ratioExp a b e - 23))).1
          ((scaledNum a (e - (ratioExp a b e - 23))).2 * b)) (ratioExp a b e - 23)) := by
  simp only [roundQuot, hane, if_false, max_eq_left (by omega : (-149 : ℤ) ≤ ratioExp a b e - 23)]
  rw [if_neg (by omega : ¬ (128 ≤ ratioExp a b e)), if_neg (by omega : ¬ (ratioExp a b e = 127))]

lemma roundQuot_near (a b : ℕ) (e : ℤ) (ha : 1 ≤ a) (hb : 1 ≤ b)
    (hlo : (2:ℚ) ^ (-126 : ℤ) ≤ (a : ℚ) / b * 2 ^ e)
    (hhi : (a : ℚ) / b * 2 ^ e < 2 ^ (127 : ℤ)) :
    ∃ m G, roundQuot a b e = .fin m G ∧ 2 ^ 23 ≤ m ∧
      (1 - (2:ℚ) ^ (-24 : ℤ)) * ((a : ℚ) / b * 2 ^ e) ≤ finVal m G ∧
      finVal m G ≤ (1 + (2:ℚ) ^ (-24 : ℤ)) * ((a : ℚ) / b * 2 ^ e) := by
  obtain ⟨hbr1, hbr2⟩ := ratioExp_bracket a b e ha hb
  set v : ℚ := (a : ℚ) / b * 2 ^ e with hv
  set E : ℤ := ratioExp a b e with hE
  have hvpos : 0 < v := lt_of_lt_of_le (two_zpow_pos _) hlo
  have hElo : -126 ≤ E := by
    by_contra hcon
    push_neg at hcon
    have : (2:ℚ) ^ (E + 1) ≤ 2 ^ (-126 : ℤ) := zpow_le_zpow_right₀ (by norm_num) (by omega)
    linarith
  have hEhi : E ≤ 126 := by
    by_contra hcon
    push_neg at hcon
    have h1 : (2:ℚ) ^ (127 : ℤ) ≤ 2 ^ E := zpow_le_zpow_right₀ (by norm_num) (by omega)
    linarith
  have hane : ¬ (a = 0) := by omega
  have hG : max (E - 23) (-149) = E - 23 := max_eq_left (by omega)
  obtain ⟨hp1, hp2⟩ := scaledNum_spec a (e - (E - 23))
  set p := scaledNum a (e - (E - 23)) with hp
  have hden : 0 < p.2 * b := Nat.mul_pos hp2 (by omega)
  set m := rneNat p.1 (p.2 * b) with hm
  have hbq : (0 : ℚ) < b := by exact_mod_cast (show 0 < b by omega)
  have hp2q : (0 : ℚ) < (p.2 : ℚ) := by exact_mod_cast hp2
  have ht : (p.1 : ℚ) / ((p.2 : ℚ) * b) = v * 2 ^ (23 - E) := by
    rw [hp1, hv]
    field_simp
    rw [mul_assoc ((a : ℚ)) ((2:ℚ) ^ e) ((2:ℚ) ^ (23 - E)), two_zpow_mul,
      show e + (23 - E) = e - (E - 23) by ring]
    ring
  have ht1 : (2:ℚ) ^ (23 : ℤ) ≤ v * 2 ^ (23 - E) := by
    calc (2:ℚ) ^ (23 : ℤ) = 2 ^ E * 2 ^ (23 - E) := by
          rw [two_zpow_mul]; congr 1; ring
      _ ≤ v * 2 ^ (23 - E) := mul_le_mul_of_nonneg_right hbr1 (le_of_lt (two_zpow_pos _))
  have ht2 : v * 2 ^ (23 - E) < 2 ^ (24 : ℤ) := by
    calc v * 2 ^ (23 - E) < 2 ^ (E + 1) * 2 ^ (23 - E) :=
          mul_lt_mul_of_pos_right hbr2 (two_zpow_pos _)
      _ = 2 ^ (24 : ℤ) := by rw [two_zpow_mul]; congr 1; ring
  obtain ⟨hr1, hr2⟩ := rneNat_rat p.1 (p.2 * b) hden
  rw [show ((p.2 * b : ℕ) : ℚ) = (p.2 : ℚ) * b by push_cast; ring] at hr1 hr2
  rw [ht] at hr1 hr2
  rw [← hm] at hr1 hr2
  have hm23 : 2 ^ 23 ≤ m := by
    have hq : (8388607 : ℚ) < (m : ℚ) := by
      have h23 : ((2:ℚ) ^ (23 : ℤ)) = 8388608 := by norm_num
      linarith
    have : (8388607 : ℕ) < m := by exact_mod_cast hq
    omega
  have hm24 : m ≤ 2 ^ 24 := by
    have hq : (m : ℚ) < 16777217 := by
      have h24' : ((2:ℚ) ^ (24 : ℤ)) = 16777216 := by norm_num
      linarith
    have : m < (16777217 : ℕ) := by exact_mod_cast hq
    omega
  have hq1 : (2:ℚ) ^ (23 - E) * 2 ^ (E - 23) = 1 := by
    rw [two_zpow_mul, show 23 - E + (E - 23) = 0 by ring, zpow_zero]
  have hq2 : (2:ℚ) ^ (E - 23) = 2 * 2 ^ (E - 24) := by
    rw [show E - 23 = 1 + (E - 24) by ring, ← two_zpow_mul]
    norm_num
  have hval1 : v - 2 ^ (E - 24) ≤ (m : ℚ) * 2 ^ (E - 23) := by
    have step := mul_le_mul_of_nonneg_right hr1 (le_of_lt (two_zpow_pos (E - 23)))
    have hrw : (v * 2 ^ (23 - E) - 1/2) * 2 ^ (E - 23) = v - 2 ^ (E - 24) := by
      have expand : (v * 2 ^ (23 - E) - 1/2) * 2 ^ (E - 23)
          = v * ((2:ℚ) ^ (23 - E) * 2 ^ (E - 23)) - (1/2) * 2 ^ (E - 23) := by ring
      rw [expand, hq1, hq2]
      ring
    rw [← hrw]
    exact step
  have hval2 : (m : ℚ) * 2 ^ (E - 23) ≤ v + 2 ^ (E - 24) := by
    have step := mul_le_mul_of_nonneg_right hr2 (le_of_lt (two_zpow_pos (E - 23)))
    have hrw : (v * 2 ^ (23 - E) + 1/2) * 2 ^ (E - 23) = v + 2 ^ (E - 24) := by
      have expand : (v * 2 ^ (23 - E) + 1/2) * 2 ^ (E - 23)
          = v * ((2:ℚ) ^ (23 - E) * 2 ^ (E - 23)) + (1/2) * 2 ^ (E - 23) := by ring
      rw [expand, hq1, hq2]
      ring
    rw [hrw] at step
    exact step
  have hulp : (2:ℚ) ^ (E - 24) ≤ v * 2 ^ (-24 : ℤ) := by
    calc (2:ℚ) ^ (E - 24) = 2 ^ E * 2 ^ (-24 : ℤ) := by
          rw [two_zpow_mul, show E + (-24 : ℤ) = E - 24 by ring]
      _ ≤ v * 2 ^ (-24 : ℤ) := mul_le_mul_of_nonneg_right hbr1 (le_of_lt (two_zpow_pos _))
  have hred : roundQuot a b e = (if m = 2 ^ 24 then F32.fin (2 ^ 23) (E - 23 + 1)
      else F32.fin m (E - 23)) :=
    roundQuot_reduce a b e hane (by omega) (by omega)
  clear_value v E p m
  by_cases h24 : m = 2 ^ 24
  · have hfv : ((2 ^ 23 : ℕ) : ℚ) * 2 ^ (E - 23 + 1) = (m : ℚ) * 2 ^ (E - 23) := by
      rw [h24]
      push_cast
      rw [show (8388608 : ℚ) = 2 ^ (23 : ℤ) by norm_num,
        show (16777216 : ℚ) = 2 ^ (24 : ℤ) by norm_num, two_zpow_mul, two_zpow_mul]
      congr 1
      ring
    refine ⟨2 ^ 23, E - 23 + 1, by rw [hred, if_pos h24], le_refl _, ?_, ?_⟩
    · unfold finVal
      rw [hfv]
      linarith [hval1, hulp]
    · unfold finVal
      rw [hfv]
      linarith [hval2, hulp]
  · refine ⟨m, E - 23, by rw [hred, if_neg h24], hm23, ?_, ?_⟩
    · unfold finVal
      linarith [hval1, hulp]
    · unfold finVal
      linarith [hval2, hulp]

lemma roundQuot_reduce' (a b : ℕ) (e : ℤ) (hane : a ≠ 0)
    (hhi : ratioExp a b e ≤ 126) :
    roundQuot a b e =
      (if rneNat (scaledNum a (e - max (ratioExp a b e - 23) (-149))).1
          ((scaledNum a (e - max (ratioExp a b e - 23) (-149))).2 * b) = 2 ^ 24
        then F32.fin (2 ^ 23) (max (ratioExp a b e - 23) (-149) + 1)
        else F32.fin (rneNat (scaledNum a (e - max (ratioExp a b e - 23) (-149))).1
          ((scaledNum a (e - max (ratioExp a b e - 23) (-149))).2 * b))
          (max (ratioExp a b e - 23) (-149))) := by
  simp only [roundQuot, hane, if_false]
  rw [if_neg (by omega : ¬ (128 ≤ ratioExp a b e)),
    if_neg (by omega : ¬ (ratioExp a b e = 127))]

lemma roundQuot_exact (a b : ℕ) (e : ℤ) (ha : 1 ≤ a) (hb : 1 ≤ b) (M : ℕ) (F : ℤ)
    (hM1 : 1 ≤ M) (hM2 : M < 2 ^ 24) (hF1 : -149 ≤ F) (hF2 : F ≤ 104)
    (hveq : (a : ℚ) / b * 2 ^ e = (M : ℚ) * 2 ^ F) :
    ∃ m G, roundQuot a b e = .fin m G ∧ (m : ℚ) * 2 ^ G = (M : ℚ) * 2 ^ F := by
  obtain ⟨hbr1, hbr2⟩ := ratioExp_bracket a b e ha hb
  set E : ℤ := ratioExp a b e with hE
  rw [hveq] at hbr1 hbr2
  have hbq : (0 : ℚ) < b := by exact_mod_cast (show 0 < b by omega)
  have hMq : (0 : ℚ) < M := by exact_mod_cast hM1
  -- E < F + 24
  have hEF : E < F + 24 := by
    by_contra hcon
    push_neg at hcon
    have h1 : (2:ℚ) ^ (F + 24) ≤ 2 ^ E := zpow_le_zpow_right₀ (by norm_num) hcon
    have h2 : (M : ℚ) * 2 ^ F < 2 ^ 24 * 2 ^ F := by
      apply mul_lt_mul_of_pos_right _ (two_zpow_pos F)
      exact_mod_cast hM2
    have h3 : ((2:ℚ) ^ (24 : ℕ) : ℚ) * 2 ^ F = 2 ^ (F + 24) := by
      rw [show ((2:ℚ) ^ (24 : ℕ) : ℚ) = 2 ^ (24 : ℤ) by norm_num, two_zpow_mul]
      congr 1
      ring
    push_cast at h2
    linarith
  have hEhi : E ≤ 127 := by omega
  have hane : a ≠ 0 := by omega
  set G : ℤ := max (E - 23) (-149) with hGdef
  have hGF : G ≤ F := by
    apply max_le _ hF1
    omega
  have hGE : E - 23 ≤ G := le_max_left _ _
  obtain ⟨hp1, hp2⟩ := scaledNum_spec a (e - G)
  set p := scaledNum a (e - G) with hp
  have hden : 0 < p.2 * b := Nat.mul_pos hp2 (by omega)
  -- cross-multiplied form of hveq
  have hcross : (a : ℚ) * 2 ^ e = (M : ℚ) * 2 ^ F * b := by
    rw [div_mul_eq_mul_div] at hveq
    field_simp at hveq
    linarith [hveq]
  -- the scaled numerator is the integer N times the denominator
  set N : ℕ := M * 2 ^ (F - G).toNat with hN
  have hNq : (N : ℚ) = (M : ℚ) * 2 ^ (F - G) := by
    rw [hN]
    push_cast
    rw [← two_zpow_toNat (F - G) (by omega)]
  have hp1N : (p.1 : ℚ) = (N : ℚ) * ((p.2 : ℚ) * b) := by
    rw [hp1, hNq]
    calc (a : ℚ) * 2 ^ (e - G) * p.2 = ((a : ℚ) * 2 ^ e) * (2 ^ (-G : ℤ) * p.2) := by
          rw [show (a : ℚ) * 2 ^ e * (2 ^ (-G : ℤ) * p.2)
              = (a : ℚ) * ((2:ℚ) ^ e * 2 ^ (-G : ℤ)) * p.2 by ring, two_zpow_mul,
            show e + -G = e - G by ring]
      _ = ((M : ℚ) * 2 ^ F * b) * (2 ^ (-G : ℤ) * p.2) := by rw [hcross]
      _ = (M : ℚ) * ((2:ℚ) ^ F * 2 ^ (-G : ℤ)) * (p.2 * b) := by ring
      _ = (M : ℚ) * 2 ^ (F - G) * (p.2 * b) := by
          rw [two_zpow_mul, show F + -G = F - G by ring]
  have hp1N' : p.1 = N * (p.2 * b) := by
    have hq : ((p.1 : ℕ) : ℚ) = ((N * (p.2 * b) : ℕ) : ℚ) := by
      push_cast
      linarith [hp1N]
    exact_mod_cast hq
  have hrne : rneNat p.1 (p.2 * b) = N := by
    rw [hp1N', rneNat_exact _ _ hden ⟨N, by ring⟩, Nat.mul_div_cancel _ hden]
  -- N < 2^24
  have hNlt : N < 2 ^ 24 := by
    have h1 : (N : ℚ) < 2 ^ (E + 1 - G) := by
      rw [hNq]
      calc (M : ℚ) * 2 ^ (F - G) = ((M : ℚ) * 2 ^ F) * 2 ^ (-G : ℤ) := by
            rw [mul_assoc, two_zpow_mul, show F + -G = F - G by ring]
        _ < 2 ^ (E + 1) * 2 ^ (-G : ℤ) :=
            mul_lt_mul_of_pos_right hbr2 (two_zpow_pos _)
        _ = 2 ^ (E + 1 - G) := by
            rw [two_zpow_mul, show E + 1 + -G = E + 1 - G by ring]
    have h2 : (2:ℚ) ^ (E + 1 - G) ≤ 2 ^ (24 : ℤ) :=
      zpow_le_zpow_right₀ (by norm_num) (by omega)
    have h3 : (N : ℚ) < 16777216 := by
      have : ((2:ℚ) ^ (24 : ℤ)) = 16777216 := by norm_num
      linarith
    exact_mod_cast h3
  have hred : roundQuot a b e = F32.fin N G := by
    simp only [roundQuot, hane, if_false]
    rw [if_neg (by omega : ¬ (128 ≤ ratioExp a b e)), ← hE, ← hGdef, ← hp, hrne,
      if_neg (by omega : ¬ (N = 2 ^ 24))]
  refine ⟨N, G, hred, ?_⟩
  calc (N : ℚ) * 2 ^ G = (M : ℚ) * 2 ^ (F - G) * 2 ^ G := by rw [hNq]
    _ = (M : ℚ) * 2 ^ F := by
        rw [mul_assoc, two_zpow_mul, show F - G + G = F by ring]

lemma finVal_zero (e : ℤ) : finVal 0 e = 0 := by
  unfold finVal
  norm_num

lemma finVal_pos (m : ℕ) (e : ℤ) (h : 0 < m) : 0 < finVal m e := by
  unfold finVal
  have : (0 : ℚ) < m := by exact_mod_cast h
  exact mul_pos this (two_zpow_pos e)

lemma div_val_eq (m1 m2 : ℕ) (e1 e2 : ℤ) (h2 : 0 < m2) :
    (m1 : ℚ) / m2 * 2 ^ (e1 - e2) = finVal m1 e1 / finVal m2 e2 := by
  unfold finVal
  have hm2 : ((m2 : ℚ)) ≠ 0 := by positivity
  have hp2 : ((2 : ℚ) ^ e2) ≠ 0 := ne_of_gt (two_zpow_pos e2)
  field_simp
  rw [show (m1 : ℚ) * 2 ^ (e1 - e2) * (↑m2 * 2 ^ e2) = (m1 : ℚ) * m2 * (2 ^ (e1 - e2) * 2 ^ e2)
      by ring, two_zpow_mul, show e1 - e2 + e2 = e1 by ring]
  ring

lemma mul_val_eq (m1 m2 : ℕ) (e1 e2 : ℤ) :
    ((m1 * m2 : ℕ) : ℚ) / (1 : ℕ) * 2 ^ (e1 + e2) = finVal m1 e1 * finVal m2 e2 := by
  unfold finVal
  push_cast
  rw [← two_zpow_mul]
  ring

lemma ofNat_val_eq (n : ℕ) : ((n : ℚ)) / (1 : ℕ) * 2 ^ (0 : ℤ) = (n : ℚ) := by
  norm_num

lemma F32_ofNat_exact (n : ℕ) (h : n ≤ 2 ^ 24) :
    ∃ m G, F32.ofNat n = .fin m G ∧ finVal m G = n := by
  rcases Nat.eq_zero_or_pos n with hz | hpos
  · subst hz
    exact ⟨0, -149, rfl, by rw [finVal_zero]; norm_num⟩
  · by_cases h24 : n = 2 ^ 24
    · subst h24
      obtain ⟨m, G, heq, hval⟩ := roundQuot_exact (2 ^ 24) 1 0 (by norm_num) le_rfl
        (2 ^ 23) 1 (by norm_num) (by norm_num) (by norm_num) (by norm_num)
        (by push_cast; norm_num)
      exact ⟨m, G, heq, by unfold finVal; rw [hval]; push_cast; norm_num⟩
    · obtain ⟨m, G, heq, hval⟩ := roundQuot_exact n 1 0 hpos le_rfl
        n 0 hpos (by omega) (by norm_num) (by norm_num)
        (by push_cast; norm_num)
      exact ⟨m, G, heq, by unfold finVal; rw [hval]; norm_num⟩

lemma F32_lt_fin_iff (m1 m2 : ℕ) (e1 e2 : ℤ) :
    F32.lt (.fin m1 e1) (.fin m2 e2) = true ↔ finVal m1 e1 < finVal m2 e2 := by
  show dyadicLT m1 e1 m2 e2 = true ↔ _
  unfold dyadicLT finVal
  split_ifs with he
  · rw [decide_eq_true_iff]
    have hk : (0 : ℤ) ≤ e2 - e1 := by omega
    constructor
    · intro h
      have hq : (m1 : ℚ) < (m2 : ℚ) * 2 ^ (e2 - e1) := by
        rw [two_zpow_toNat _ hk]
        exact_mod_cast h
      calc (m1 : ℚ) * 2 ^ e1 < ((m2 : ℚ) * 2 ^ (e2 - e1)) * 2 ^ e1 :=
            mul_lt_mul_of_pos_right hq (two_zpow_pos e1)
        _ = (m2 : ℚ) * 2 ^ e2 := by
            rw [mul_assoc, two_zpow_mul, show e2 - e1 + e1 = e2 by ring]
    · intro h
      have hq : (m1 : ℚ) < (m2 : ℚ) * 2 ^ (e2 - e1) := by
        have hstep : (m1 : ℚ) * 2 ^ e1 < ((m2 : ℚ) * 2 ^ (e2 - e1)) * 2 ^ e1 := by
          rw [mul_assoc, two_zpow_mul, show e2 - e1 + e1 = e2 by ring]
          exact h
        exact lt_of_mul_lt_mul_right hstep (le_of_lt (two_zpow_pos e1))
      rw [two_zpow_toNat _ hk] at hq
      exact_mod_cast hq
  · rw [decide_eq_true_iff]
    push_neg at he
    have hk : (0 : ℤ) ≤ e1 - e2 := by omega
    constructor
    · intro h
      have hq : (m1 : ℚ) * 2 ^ (e1 - e2) < (m2 : ℚ) := by
        rw [two_zpow_toNat _ hk]
        exact_mod_cast h
      calc (m1 : ℚ) * 2 ^ e1 = ((m1 : ℚ) * 2 ^ (e1 - e2)) * 2 ^ e2 := by
            rw [mul_assoc, two_zpow_mul, show e1 - e2 + e2 = e1 by ring]
        _ < (m2 : ℚ) * 2 ^ e2 := mul_lt_mul_of_pos_right hq (two_zpow_pos e2)
    · intro h
      have hq : (m1 : ℚ) * 2 ^ (e1 - e2) < (m2 : ℚ) := by
        have hstep : ((m1 : ℚ) * 2 ^ (e1 - e2)) * 2 ^ e2 < (m2 : ℚ) * 2 ^ e2 := by
          rw [mul_assoc, two_zpow_mul, show e1 - e2 + e2 = e1 by ring]
          exact h
        exact lt_of_mul_lt_mul_right hstep (le_of_lt (two_zpow_pos e2))
      rw [two_zpow_toNat _ hk] at hq
      exact_mod_cast hq

lemma dyadicTrunc_le (m : ℕ) (e : ℤ) : (dyadicTrunc m e : ℚ) ≤ finVal m e := by
  unfold dyadicTrunc finVal
  split_ifs with he
  · rw [two_zpow_toNat _ he]
    push_cast
    exact le_refl _
  · push_neg at he
    have hk : (2 : ℚ) ^ e = ((2 : ℚ) ^ (-e).toNat)⁻¹ := by
      rw [← two_zpow_toNat (-e) (by omega), ← zpow_neg, neg_neg]
    rw [hk, ← div_eq_mul_inv]
    calc ((m / 2 ^ (-e).toNat : ℕ) : ℚ) ≤ (m : ℚ) / ((2 ^ (-e).toNat : ℕ) : ℚ) :=
          Nat.cast_div_le
      _ = (m : ℚ) / (2 : ℚ) ^ (-e).toNat := by push_cast; ring

lemma dyadicTrunc_eq_floor (m : ℕ) (e : ℤ) : dyadicTrunc m e = ⌊finVal m e⌋₊ := by
  unfold dyadicTrunc finVal
  split_ifs with he
  · rw [two_zpow_toNat _ he,
      show (m : ℚ) * (2 : ℚ) ^ e.toNat = ((m * 2 ^ e.toNat : ℕ) : ℚ) by push_cast; ring,
      Nat.floor_natCast]
  · push_neg at he
    have hk : (2 : ℚ) ^ e = ((2 : ℚ) ^ (-e).toNat)⁻¹ := by
      rw [← two_zpow_toNat (-e) (by omega), ← zpow_neg, neg_neg]
    rw [hk, ← div_eq_mul_inv,
      show (2 : ℚ) ^ (-e).toNat = ((2 ^ (-e).toNat : ℕ) : ℚ) by push_cast; ring,
      Nat.floor_div_eq_div]

lemma toU32_fin_le (m : ℕ) (e : ℤ) (N : ℕ) (h : finVal m e < (N : ℚ) + 1) :
    F32.toU32 (.fin m e) ≤ N := by
  show min (dyadicTrunc m e) (2 ^ 32 - 1) ≤ N
  have h1 : (dyadicTrunc m e : ℚ) < (N : ℚ) + 1 := lt_of_le_of_lt (dyadicTrunc_le m e) h
  have h2 : dyadicTrunc m e < N + 1 := by exact_mod_cast h1
  omega

lemma toU32_fin_eq (m : ℕ) (e : ℤ) (h : finVal m e < (2 : ℚ) ^ (32 : ℤ)) :
    F32.toU32 (.fin m e) = ⌊finVal m e⌋₊ := by
  show min (dyadicTrunc m e) (2 ^ 32 - 1) = ⌊finVal m e⌋₊
  rw [dyadicTrunc_eq_floor]
  have h1 : (⌊finVal m e⌋₊ : ℚ) ≤ finVal m e := by
    apply Nat.floor_le
    unfold finVal
    positivity
  have h2 : (⌊finVal m e⌋₊ : ℚ) < 4294967296 := by
    have : ((2 : ℚ) ^ (32 : ℤ)) = 4294967296 := by norm_num
    linarith
  have h3 : ⌊finVal m e⌋₊ < 4294967296 := by exact_mod_cast h2
  omega

lemma mul_fin_zero_toU32 (x : F32) (e : ℤ) : (F32.mul x (.fin 0 e)).toU32 = 0 := by
  cases x with
  | nan => rfl
  | inf => simp [F32.mul, F32.toU32]
  | fin m1 e1 =>
    show (roundQuot (m1 * 0) 1 (e1 + e)).toU32 = 0
    rw [Nat.mul_zero]
    show (F32.fin 0 (-149)).toU32 = 0
    rfl

/-!
Program-level lemmas and the claim theorems.
-/

lemma create_display_image_of_lt (img : RgbaImage) (ww wh : ℕ)
    (h1 : img.height < wh) (h2 : img.width < ww) :
    create_display_image img ww wh = (img.width, img.height, img) := by
  unfold create_display_image
  rw [if_pos ⟨h1, h2⟩]

lemma effectiveDim_eq_max (d : ℕ) : effectiveDim d = max 150 d := by
  unfold effectiveDim MIN_WINDOW_DIMENSION
  split_ifs with hlt
  · omega
  · omega

/-- C1: for every source image and target window with positive dimensions,
if the source is strictly smaller than the target in both dimensions then
`create_display_image` returns the source dimensions unchanged and the
fitted image is a direct copy (the clone) of the source, with no scaling
performed. -/
theorem c1_identity_when_strictly_smaller (img : RgbaImage) (window_width window_height : ℕ)
    (hh : img.height < window_height) (hw : img.width < window_width) :
    create_display_image img window_width window_height = (img.width, img.height, img) :=
  create_display_image_of_lt img window_width window_height hh hw

/-- Witness for C1 at the 100×80 test image in a 150×150 window. -/
theorem c1_witness :
    testImage.height < 150 ∧ testImage.width < 150 ∧
      create_display_image testImage 150 150 = (testImage.width, testImage.height, testImage) :=
  ⟨by decide, by decide,
    c1_identity_when_strictly_smaller testImage 150 150 (by decide) (by decide)⟩

/-- C4: the requested window dimensions are clamped to the 150 minimum
independently per axis (exactly 150 below 150, unchanged at or above 150,
which is `max 150 ·`), and the clamped dimensions are the ones the initial
layout is computed against. -/
theorem c4_minimum_window_clamp (img : RgbaImage) (reqW reqH : ℕ) :
    effectiveDim reqW = max 150 reqW ∧ effectiveDim reqH = max 150 reqH ∧
      initState img reqW reqH = renderState img (max 150 reqW) (max 150 reqH) := by
  refine ⟨effectiveDim_eq_max reqW, effectiveDim_eq_max reqH, ?_⟩
  unfold initState
  rw [effectiveDim_eq_max reqW, effectiveDim_eq_max reqH]

/-- C7: the fitted output computed by the resize-handling path is a pure
function of the source image and the target size: it does not depend on the
previous display state, and re-running the handler on its own output with
the same `(x, y)` produces the identical (byte-identical texture) state. -/
theorem c7_refit_idempotent (img : RgbaImage) (s1 s2 : DisplayState) (x y : ℤ) :
    step img s1 (.resized x y) = step img s2 (.resized x y) ∧
      (step img s1 (.resized x y)).bind (fun s' => step img s' (.resized x y)) =
        step img s1 (.resized x y) :=
  ⟨rfl, rfl⟩

/-- C9: `create_display_image` is total on zero-dimension images: a zero
source dimension propagates through the `f32` pipeline (division by zero
gives infinity, infinity times zero gives NaN, the NaN-to-`u32` cast
saturates to 0) and yields a defined, zero-sized output in that axis rather
than a crash. -/
theorem c9_zero_dimensions_defined (iw ih ww wh m : ℕ) (e e' : ℤ) :
    (iw = 0 → (create_display_image_dims iw ih ww wh).1 = 0) ∧
    (ih = 0 → (create_display_image_dims iw ih ww wh).2 = 0) ∧
    (m ≠ 0 → F32.div (.fin m e) (.fin 0 e') = .inf) ∧
    F32.mul .inf (.fin 0 e) = .nan ∧
    F32.nan.toU32 = 0 := by
  refine ⟨?_, ?_, ?_, rfl, rfl⟩
  · intro hz
    subst hz
    unfold create_display_image_dims
    split_ifs with hc
    · rfl
    · exact mul_fin_zero_toU32 _ _
  · intro hz
    subst hz
    unfold create_display_image_dims
    split_ifs with hc
    · rfl
    · exact mul_fin_zero_toU32 _ _
  · intro hm
    show (if m = 0 then F32.nan else F32.inf) = F32.inf
    rw [if_neg hm]

/-- Witness for C9 at a 0×5 image in a 150×150 window and the concrete
division 1.0 / 0.0. -/
theorem c9_witness :
    (create_display_image_dims 0 5 150 150).1 = 0 ∧
      F32.div (.fin 1 0) (.fin 0 0) = .inf :=
  ⟨(c9_zero_dimensions_defined 0 5 150 150 1 0 0).1 rfl,
    (c9_zero_dimensions_defined 0 5 150 150 1 0 0).2.2.1 (by decide)⟩

/-- C10: the resize handler converts the event's signed dimensions with a
wrapping cast, so a negative reported dimension `x < 0` makes the fit
computation run against `x + 2^32` instead of the event being rejected or
clamped. -/
theorem c10_negative_resize_wraps (img : RgbaImage) (s : DisplayState) (x y : ℤ)
    (hneg : x < 0) (hlb : -2^31 ≤ x) :
    step img s (.resized x y) =
      some (renderState img (x + 2^32).toNat ((y % 2^32).toNat)) := by
  have hx : x % 2^32 = x + 2^32 := by omega
  simp only [step]
  rw [hx]

/-- Witness for C10 at a resize event reporting (-1, -1). -/
theorem c10_witness :
    step oneByOneImage (initState oneByOneImage 800 600) (.resized (-1) (-1)) =
      some (renderState oneByOneImage ((-1 + 2^32 : ℤ).toNat) (((-1 : ℤ) % 2^32).toNat)) :=
  c10_negative_resize_wraps oneByOneImage (initState oneByOneImage 800 600) (-1) (-1)
    (by decide) (by decide)

/-- Counterexample to C2 as stated: at source 16777219×2 and window
16777219×3 (a scaling-branch input with positive dimensions), the code
returns width 16777220, but the claimed real-valued formula
`floor(min(W/w, H/h) * w)` gives 16777219 — the `f32` roundings (here the
upward-rounded `u32 as f32` conversion of 16777219) change the result. -/
theorem c2_counterexample :
    ¬ ((2 : ℕ) < 3 ∧ (16777219 : ℕ) < 16777219) ∧
      (create_display_image_dims 16777219 2 16777219 3).1 ≠
        ⌊min ((16777219 : ℚ) / 16777219) ((3 : ℚ) / 2) * 16777219⌋₊ := by
  constructor
  · omega
  · have h1 : (create_display_image_dims 16777219 2 16777219 3).1 = 16777220 := by decide
    have h2 : ⌊min ((16777219 : ℚ) / 16777219) ((3 : ℚ) / 2) * 16777219⌋₊ = 16777219 := by
      rw [show ((16777219 : ℚ) / 16777219) = 1 by norm_num]
      rw [min_eq_left (by norm_num : (1:ℚ) ≤ 3/2), one_mul]
      rw [show (16777219 : ℚ) = ((16777219 : ℕ) : ℚ) by norm_num, Nat.floor_natCast]
    omega

/-- Counterexample to C3 as stated: fitting the 16777219×1 source into a
16777219×1 window takes the scaling branch with `f32` scale 1.0, but the
`u32 as f32` conversion of 16777219 rounds up to 16777220, so the returned
width 16777220 exceeds the window width 16777219. -/
theorem c3_counterexample :
    (create_display_image wideImage 16777219 1).1 = 16777220 ∧
      ¬ ((create_display_image wideImage 16777219 1).1 ≤ 16777219) := by
  have h : (create_display_image wideImage 16777219 1).1 = 16777220 := by decide
  exact ⟨h, by omega⟩

/-- Counterexample to C5 as stated: the 16777219×1 source fits the
16777219×2 window (non-strictly: equal width), yet the code takes the
scaling branch and produces a 16777220×1 output, so the fitted pixel count
differs from the source pixel count — the claim's non-strict "fits" premise
is wrong for the code, which requires strict inequalities for the identity
copy. -/
theorem c5_counterexample :
    wideImage.width ≤ 16777219 ∧ wideImage.height ≤ 2 ∧
      (create_display_image wideImage 16777219 2).2.2.width *
          (create_display_image wideImage 16777219 2).2.2.height ≠
        wideImage.width * wideImage.height := by
  refine ⟨by decide, by decide, ?_⟩
  have h : (create_display_image wideImage 16777219 2).2.2.width *
      (create_display_image wideImage 16777219 2).2.2.height = 16777220 := by decide
  have h2 : wideImage.width * wideImage.height = 16777219 := by decide
  omega

/-- Counterexample to C6 as stated: a fitted 1×1 image in a 16777220×1
window (both produced by the code's own fit) gets draw offset
`((16777220 - 1) as f32 / 2.0) as i32 = 8388610`, not the integer
truncation `(16777220 - 1) / 2 = 8388609`: the difference 16777219 is
rounded up by the `u32 as f32` conversion before the halving. -/
theorem c6_counterexample :
    (renderState oneByOneImage 16777220 1).imgW ≤ 16777220 ∧
      (renderState oneByOneImage 16777220 1).imgH ≤ 1 ∧
      (renderState oneByOneImage 16777220 1).offX ≠
        (((16777220 - (renderState oneByOneImage 16777220 1).imgW) / 2 : ℕ) : ℤ) := by
  refine ⟨by decide, by decide, ?_⟩
  have h1 : (renderState oneByOneImage 16777220 1).offX = 8388610 := by decide
  have h2 : (renderState oneByOneImage 16777220 1).imgW = 1 := by decide
  rw [h1, h2]
  decide

/-- Counterexample to C8 as stated: in the 1000×500 source, 800×600 window
scenario the code's `width_scale` is the `f32` quotient `800.0 / 1000.0`,
which is `13421773 * 2^-24 = 0.800000011920928955078125`, not the claimed
exact `0.8`. -/
theorem c8_counterexample :
    (F32.div (F32.ofNat 800) (F32.ofNat 1000)).val? ≠ some (4/5 : ℚ) := by
  have hd : F32.div (F32.ofNat 800) (F32.ofNat 1000) = .fin 13421773 (-24) := by decide
  rw [hd]
  intro hcon
  have heq : finVal 13421773 (-24) = 4/5 := Option.some.inj hcon
  unfold finVal at heq
  norm_num at heq

/-- C8 (amended): the scenario takes the scaling branch since 500 < 600 but
1000 is not < 800; the `f32` scale factors are the binary32 roundings
`13421773 * 2^-24 = 0.800000011920928955078125` of 0.8 and
`10066330 * 2^-23 = 1.2000000476837158203125` of 1.2; the width scale is the
smaller and is selected; and the output dimensions are (800, 400). -/
theorem c8_amended_scenario :
    ((500 : ℕ) < 600 ∧ ¬ ((1000 : ℕ) < 800)) ∧
      create_display_image_dims 1000 500 800 600 = (800, 400) ∧
      F32.div (F32.ofNat 800) (F32.ofNat 1000) = .fin 13421773 (-24) ∧
      F32.div (F32.ofNat 600) (F32.ofNat 500) = .fin 10066330 (-23) ∧
      F32.lt (.fin 13421773 (-24)) (.fin 10066330 (-23)) = true ∧
      finVal 13421773 (-24) = 13421773 / 2 ^ 24 ∧
      finVal 10066330 (-23) = 10066330 / 2 ^ 23 := by
  refine ⟨by omega, by decide, by decide, by decide, by decide, ?_, ?_⟩
  · unfold finVal
    norm_num
  · unfold finVal
    norm_num

lemma F32_ofNat_near (n : ℕ) (h1 : 0 < n) (h2 : n < 2 ^ 32) :
    ∃ m G, F32.ofNat n = .fin m G ∧ 0 < finVal m G ∧
      (1 - 1/16777216 : ℚ) * n ≤ finVal m G ∧
      finVal m G ≤ (1 + 1/16777216 : ℚ) * n := by
  have hv : (n : ℚ) / ((1 : ℕ) : ℚ) * 2 ^ (0 : ℤ) = n := by norm_num
  have hn1 : (1 : ℚ) ≤ n := by exact_mod_cast h1
  have hn2 : (n : ℚ) < 4294967296 := by exact_mod_cast h2
  obtain ⟨m, G, heq, hm, hlo', hhi'⟩ := roundQuot_near n 1 0 h1 le_rfl
    (by rw [hv]; calc (2:ℚ) ^ (-126 : ℤ) ≤ 1 := by norm_num
          _ ≤ n := hn1)
    (by rw [hv]; calc (n : ℚ) < 4294967296 := hn2
          _ ≤ 2 ^ (127 : ℤ) := by norm_num)
  rw [hv] at hlo' hhi'
  have hul : ((2:ℚ) ^ (-24 : ℤ)) = 1/16777216 := by norm_num
  rw [hul] at hlo' hhi'
  exact ⟨m, G, heq, finVal_pos m G (by omega), hlo', hhi'⟩

lemma F32_div_near (m1 m2 : ℕ) (G1 G2 : ℤ) (hm1 : 0 < m1) (hm2 : 0 < m2)
    (hlo : (2:ℚ) ^ (-126 : ℤ) ≤ finVal m1 G1 / finVal m2 G2)
    (hhi : finVal m1 G1 / finVal m2 G2 < 2 ^ (127 : ℤ)) :
    ∃ m G, F32.div (.fin m1 G1) (.fin m2 G2) = .fin m G ∧ 0 < finVal m G ∧
      (1 - 1/16777216 : ℚ) * (finVal m1 G1 / finVal m2 G2) ≤ finVal m G ∧
      finVal m G ≤ (1 + 1/16777216 : ℚ) * (finVal m1 G1 / finVal m2 G2) := by
  have hv := div_val_eq m1 m2 G1 G2 hm2
  obtain ⟨m, G, heq, hm, hlo', hhi'⟩ := roundQuot_near m1 m2 (G1 - G2) hm1 hm2
    (by rw [hv]; exact hlo) (by rw [hv]; exact hhi)
  rw [hv] at hlo' hhi'
  have hul : ((2:ℚ) ^ (-24 : ℤ)) = 1/16777216 := by norm_num
  rw [hul] at hlo' hhi'
  refine ⟨m, G, ?_, finVal_pos m G (by omega), hlo', hhi'⟩
  show (if m2 = 0 then (if m1 = 0 then F32.nan else F32.inf) else roundQuot m1 m2 (G1 - G2)) =
    F32.fin m G
  rw [if_neg (by omega : ¬ (m2 = 0))]
  exact heq

lemma F32_mul_near (m1 m2 : ℕ) (G1 G2 : ℤ) (hm1 : 0 < m1) (hm2 : 0 < m2)
    (hlo : (2:ℚ) ^ (-126 : ℤ) ≤ finVal m1 G1 * finVal m2 G2)
    (hhi : finVal m1 G1 * finVal m2 G2 < 2 ^ (127 : ℤ)) :
    ∃ m G, F32.mul (.fin m1 G1) (.fin m2 G2) = .fin m G ∧ 0 < finVal m G ∧
      (1 - 1/16777216 : ℚ) * (finVal m1 G1 * finVal m2 G2) ≤ finVal m G ∧
      finVal m G ≤ (1 + 1/16777216 : ℚ) * (finVal m1 G1 * finVal m2 G2) := by
  have hv := mul_val_eq m1 m2 G1 G2
  obtain ⟨m, G, heq, hm, hlo', hhi'⟩ := roundQuot_near (m1 * m2) 1 (G1 + G2)
    (Nat.mul_pos hm1 hm2) le_rfl (by rw [hv]; exact hlo) (by rw [hv]; exact hhi)
  rw [hv] at hlo' hhi'
  have hul : ((2:ℚ) ^ (-24 : ℤ)) = 1/16777216 := by norm_num
  rw [hul] at hlo' hhi'
  exact ⟨m, G, heq, finVal_pos m G (by omega), hlo', hhi'⟩

lemma F32_if_lt_min (m1 m2 : ℕ) (G1 G2 : ℤ) :
    ∃ ms Gs,
      (if F32.lt (.fin m1 G1) (.fin m2 G2) then F32.fin m1 G1 else F32.fin m2 G2) =
        .fin ms Gs ∧
      finVal ms Gs = min (finVal m1 G1) (finVal m2 G2) ∧
      ((ms = m1 ∧ Gs = G1) ∨ (ms = m2 ∧ Gs = G2)) := by
  by_cases hlt : F32.lt (.fin m1 G1) (.fin m2 G2) = true
  · refine ⟨m1, G1, by rw [if_pos hlt], ?_, Or.inl ⟨rfl, rfl⟩⟩
    rw [min_eq_left (le_of_lt ((F32_lt_fin_iff m1 m2 G1 G2).1 hlt))]
  · refine ⟨m2, G2, by rw [if_neg hlt], ?_, Or.inr ⟨rfl, rfl⟩⟩
    have : ¬ (finVal m1 G1 < finVal m2 G2) := fun hc => hlt ((F32_lt_fin_iff m1 m2 G1 G2).2 hc)
    rw [min_eq_right (by linarith [lt_or_ge (finVal m1 G1) (finVal m2 G2)] )]

lemma toU32_fin_floor (m : ℕ) (e : ℤ) :
    F32.toU32 (.fin m e) = min (⌊finVal m e⌋₊) (2 ^ 32 - 1) := by
  show min (dyadicTrunc m e) (2 ^ 32 - 1) = _
  rw [dyadicTrunc_eq_floor]

lemma pos_of_finVal_pos (m : ℕ) (e : ℤ) (h : 0 < finVal m e) : 0 < m := by
  rcases Nat.eq_zero_or_pos m with hz | hp
  · subst hz
    rw [finVal_zero] at h
    exact absurd h (lt_irrefl 0)
  · exact hp

/-- C2 (amended): on the scaling branch with positive `u32` dimensions, the
code computes `width_scale` and `height_scale` as the finite `f32` roundings
of `window/image` (never NaN or infinity here), its comparison-based
selection picks exactly the rational minimum of the two scale values, and
each output dimension is the `f32` product `scale * dimension` truncated
toward zero (saturating at `2^32 - 1`) — i.e. the claim's formula holds with
every operation performed in `f32` precision rather than over the reals. -/
theorem c2_amended_f32_scaling (iw ih ww wh : ℕ)
    (hiw : 0 < iw) (hih : 0 < ih) (hww : 0 < ww) (hwh : 0 < wh)
    (biw : iw < 2 ^ 32) (bih : ih < 2 ^ 32) (bww : ww < 2 ^ 32) (bwh : wh < 2 ^ 32)
    (hbr : ¬ (ih < wh ∧ iw < ww)) :
    ∃ qws qhs pw ph : ℚ,
      (F32.div (F32.ofNat ww) (F32.ofNat iw)).val? = some qws ∧
      (F32.div (F32.ofNat wh) (F32.ofNat ih)).val? = some qhs ∧
      (if F32.lt (F32.div (F32.ofNat ww) (F32.ofNat iw))
            (F32.div (F32.ofNat wh) (F32.ofNat ih))
        then F32.div (F32.ofNat ww) (F32.ofNat iw)
        else F32.div (F32.ofNat wh) (F32.ofNat ih)).val? = some (min qws qhs) ∧
      (F32.mul (if F32.lt (F32.div (F32.ofNat ww) (F32.ofNat iw))
            (F32.div (F32.ofNat wh) (F32.ofNat ih))
        then F32.div (F32.ofNat ww) (F32.ofNat iw)
        else F32.div (F32.ofNat wh) (F32.ofNat ih)) (F32.ofNat iw)).val? = some pw ∧
      (F32.mul (if F32.lt (F32.div (F32.ofNat ww) (F32.ofNat iw))
            (F32.div (F32.ofNat wh) (F32.ofNat ih))
        then F32.div (F32.ofNat ww) (F32.ofNat iw)
        else F32.div (F32.ofNat wh) (F32.ofNat ih)) (F32.ofNat ih)).val? = some ph ∧
      create_display_image_dims iw ih ww wh =
        (min ⌊pw⌋₊ (2 ^ 32 - 1), min ⌊ph⌋₊ (2 ^ 32 - 1)) := by
  -- conversions, with crude numeric bounds [1/2, 2^33]
  have hc : ∀ n : ℕ, 0 < n → n < 2 ^ 32 →
      ∃ m G, F32.ofNat n = .fin m G ∧ 0 < m ∧
        (1:ℚ)/2 ≤ finVal m G ∧ finVal m G ≤ 8589934592 := by
    intro n hn1 hn2
    obtain ⟨m, G, heq, hpos, hlo, hhi⟩ := F32_ofNat_near n hn1 hn2
    have h1 : (1:ℚ) ≤ n := by exact_mod_cast hn1
    have h2 : (n:ℚ) ≤ 4294967296 := by
      have hle : n ≤ 4294967296 := by omega
      exact_mod_cast hle
    have k1 : (1 - 1/16777216 : ℚ) * 1 ≤ (1 - 1/16777216 : ℚ) * n :=
      mul_le_mul_of_nonneg_left h1 (by norm_num)
    have k2 : (1 + 1/16777216 : ℚ) * n ≤ (3/2 : ℚ) * 4294967296 :=
      mul_le_mul (by norm_num) h2 (by positivity) (by norm_num)
    exact ⟨m, G, heq, pos_of_finVal_pos m G hpos, by linarith, by linarith⟩
  obtain ⟨mWW, GWW, hWWeq, hWWm, hWW1, hWW2⟩ := hc ww hww bww
  obtain ⟨mIW, GIW, hIWeq, hIWm, hIW1, hIW2⟩ := hc iw hiw biw
  obtain ⟨mWH, GWH, hWHeq, hWHm, hWH1, hWH2⟩ := hc wh hwh bwh
  obtain ⟨mIH, GIH, hIHeq, hIHm, hIH1, hIH2⟩ := hc ih hih bih
  -- the two scale divisions are finite, with values in [2^-35, 2^35]
  have hdiv : ∀ (ma : ℕ) (Ga : ℤ) (mb : ℕ) (Gb : ℤ),
      (1:ℚ)/2 ≤ finVal ma Ga → finVal ma Ga ≤ 8589934592 →
      (1:ℚ)/2 ≤ finVal mb Gb → finVal mb Gb ≤ 8589934592 →
      ∃ m G, F32.div (.fin ma Ga) (.fin mb Gb) = .fin m G ∧ 0 < m ∧
        1/34359738368 ≤ finVal m G ∧ finVal m G ≤ 34359738368 := by
    intro ma Ga mb Gb ha1 ha2 hb1 hb2
    have hbpos : (0:ℚ) < finVal mb Gb := by linarith
    have hapos : (0:ℚ) < finVal ma Ga := by linarith
    have hr1 : (1:ℚ)/17179869184 ≤ finVal ma Ga / finVal mb Gb := by
      rw [div_le_div_iff₀ (by norm_num) hbpos]
      linarith
    have hr2 : finVal ma Ga / finVal mb Gb ≤ 17179869184 := by
      rw [div_le_iff₀ hbpos]
      linarith
    obtain ⟨m, G, heq, hpos, hlo, hhi⟩ := F32_div_near ma mb Ga Gb
      (pos_of_finVal_pos _ _ hapos) (pos_of_finVal_pos _ _ hbpos)
      (by
        have e126 : (2:ℚ) ^ (-126 : ℤ) ≤ 1/17179869184 := by norm_num
        linarith [hr1])
      (by
        have e127 : (17179869184 : ℚ) < 2 ^ (127 : ℤ) := by norm_num
        linarith [hr2])
    have hqpos : (0:ℚ) ≤ finVal ma Ga / finVal mb Gb := by positivity
    have k3 : (1/2 : ℚ) * (finVal ma Ga / finVal mb Gb) ≤
        (1 - 1/16777216 : ℚ) * (finVal ma Ga / finVal mb Gb) :=
      mul_le_mul_of_nonneg_right (by norm_num) hqpos
    have k4 : (1 + 1/16777216 : ℚ) * (finVal ma Ga / finVal mb Gb) ≤
        (3/2 : ℚ) * (finVal ma Ga / finVal mb Gb) :=
      mul_le_mul_of_nonneg_right (by norm_num) hqpos
    refine ⟨m, G, heq, pos_of_finVal_pos _ _ hpos, ?_, ?_⟩
    · linarith
    · linarith
  obtain ⟨mS1, GS1, hS1eq, hS1m, hS1a, hS1b⟩ := hdiv mWW GWW mIW GIW hWW1 hWW2 hIW1 hIW2
  obtain ⟨mS2, GS2, hS2eq, hS2m, hS2a, hS2b⟩ := hdiv mWH GWH mIH GIH hWH1 hWH2 hIH1 hIH2
  -- the selected scale
  obtain ⟨mS, GS, hSeq, hSval, hSor⟩ := F32_if_lt_min mS1 mS2 GS1 GS2
  have hSm : 0 < mS := by
    rcases hSor with ⟨h1, _⟩ | ⟨h1, _⟩
    · omega
    · omega
  have hSa : (1:ℚ)/34359738368 ≤ finVal mS GS := by
    rw [hSval]
    exact le_min hS1a hS2a
  have hSb : finVal mS GS ≤ 34359738368 := by
    rw [hSval]
    exact min_le_of_left_le hS1b
  -- the two products are finite
  have hmul : ∀ (mb : ℕ) (Gb : ℤ),
      (1:ℚ)/2 ≤ finVal mb Gb → finVal mb Gb ≤ 8589934592 → 0 < mb →
      ∃ m G, F32.mul (.fin mS GS) (.fin mb Gb) = .fin m G := by
    intro mb Gb hb1 hb2 hmb
    have hSpos : (0:ℚ) ≤ finVal mS GS := by linarith [hSa]
    have k5 : (1/34359738368 : ℚ) * (1/2) ≤ finVal mS GS * finVal mb Gb :=
      mul_le_mul hSa hb1 (by norm_num) hSpos
    have k6 : finVal mS GS * finVal mb Gb ≤ 34359738368 * 8589934592 :=
      mul_le_mul hSb hb2 (by linarith) (by norm_num)
    obtain ⟨m, G, heq, _, _, _⟩ := F32_mul_near mS mb GS Gb hSm hmb
      (by
        rw [show ((2:ℚ) ^ (-126 : ℤ))
            = 1/85070591730234615865843651857942052864 from by norm_num]
        have e126 : (1/85070591730234615865843651857942052864 : ℚ)
            ≤ (1/34359738368 : ℚ) * (1/2) := by norm_num
        linarith)
      (by
        rw [show ((2:ℚ) ^ (127 : ℤ))
            = 170141183460469231731687303715884105728 from by norm_num]
        have e127 : (34359738368 : ℚ) * 8589934592
            < (170141183460469231731687303715884105728 : ℚ) := by norm_num
        linarith)
    exact ⟨m, G, heq⟩
  obtain ⟨mPW, GPW, hPWeq⟩ := hmul mIW GIW hIW1 hIW2 hIWm
  obtain ⟨mPH, GPH, hPHeq⟩ := hmul mIH GIH hIH1 hIH2 hIHm
  -- assemble
  refine ⟨finVal mS1 GS1, finVal mS2 GS2, finVal mPW GPW, finVal mPH GPH, ?_, ?_, ?_, ?_, ?_, ?_⟩
  · rw [hWWeq, hIWeq, hS1eq]
    rfl
  · rw [hWHeq, hIHeq, hS2eq]
    rfl
  · rw [hWWeq, hIWeq, hWHeq, hIHeq, hS1eq, hS2eq, hSeq]
    show some (finVal mS GS) = some (min (finVal mS1 GS1) (finVal mS2 GS2))
    rw [hSval]
  · rw [hWWeq, hIWeq, hWHeq, hIHeq, hS1eq, hS2eq, hSeq, hPWeq]
    rfl
  · rw [hWWeq, hIWeq, hWHeq, hIHeq, hS1eq, hS2eq, hSeq, hPHeq]
    rfl
  · unfold create_display_image_dims
    rw [if_neg hbr]
    simp only [hWWeq, hIWeq, hWHeq, hIHeq, hS1eq, hS2eq, hSeq, hPWeq, hPHeq]
    rw [toU32_fin_floor, toU32_fin_floor]

set_option maxHeartbeats 1600000 in
lemma fit_dims_le (iw ih ww wh : ℕ)
    (hiw : 0 < iw) (hih : 0 < ih) (hww : 0 < ww) (hwh : 0 < wh)
    (biw : iw < 2 ^ 23) (bih : ih < 2 ^ 23) (bww : ww < 2 ^ 23) (bwh : wh < 2 ^ 23) :
    (create_display_image_dims iw ih ww wh).1 ≤ ww ∧
      (create_display_image_dims iw ih ww wh).2 ≤ wh := by
  unfold create_display_image_dims
  by_cases hbr : ih < wh ∧ iw < ww
  · rw [if_pos hbr]
    exact ⟨le_of_lt hbr.2, le_of_lt hbr.1⟩
  · rw [if_neg hbr]
    -- exact conversions
    obtain ⟨mWW, GWW, hWWeq, hWWv⟩ := F32_ofNat_exact ww (by omega)
    obtain ⟨mIW, GIW, hIWeq, hIWv⟩ := F32_ofNat_exact iw (by omega)
    obtain ⟨mWH, GWH, hWHeq, hWHv⟩ := F32_ofNat_exact wh (by omega)
    obtain ⟨mIH, GIH, hIHeq, hIHv⟩ := F32_ofNat_exact ih (by omega)
    have hWWq : (1:ℚ) ≤ finVal mWW GWW := by rw [hWWv]; exact_mod_cast hww
    have hIWq : (1:ℚ) ≤ finVal mIW GIW := by rw [hIWv]; exact_mod_cast hiw
    have hWHq : (1:ℚ) ≤ finVal mWH GWH := by rw [hWHv]; exact_mod_cast hwh
    have hIHq : (1:ℚ) ≤ finVal mIH GIH := by rw [hIHv]; exact_mod_cast hih
    have hWWb : finVal mWW GWW ≤ 8388608 := by
      rw [hWWv]
      have : ww ≤ 8388608 := by omega
      exact_mod_cast this
    have hIWb : finVal mIW GIW ≤ 8388608 := by
      rw [hIWv]
      have : iw ≤ 8388608 := by omega
      exact_mod_cast this
    have hWHb : finVal mWH GWH ≤ 8388608 := by
      rw [hWHv]
      have : wh ≤ 8388608 := by omega
      exact_mod_cast this
    have hIHb : finVal mIH GIH ≤ 8388608 := by
      rw [hIHv]
      have : ih ≤ 8388608 := by omega
      exact_mod_cast this
    -- the scale divisions
    have hdiv : ∀ (ma : ℕ) (Ga : ℤ) (mb : ℕ) (Gb : ℤ),
        (1:ℚ) ≤ finVal ma Ga → finVal ma Ga ≤ 8388608 →
        (1:ℚ) ≤ finVal mb Gb → finVal mb Gb ≤ 8388608 →
        ∃ m G, F32.div (.fin ma Ga) (.fin mb Gb) = .fin m G ∧ 0 < m ∧
          (1/16777216 : ℚ) ≤ finVal m G ∧
          finVal m G ≤ (1 + 1/16777216 : ℚ) * (finVal ma Ga / finVal mb Gb) := by
      intro ma Ga mb Gb ha1 ha2 hb1 hb2
      have hapos : (0:ℚ) < finVal ma Ga := by linarith
      have hbpos : (0:ℚ) < finVal mb Gb := by linarith
      have hr1 : (1:ℚ)/8388608 ≤ finVal ma Ga / finVal mb Gb := by
        rw [div_le_div_iff₀ (by norm_num) hbpos]
        linarith
      have hr2 : finVal ma Ga / finVal mb Gb ≤ 8388608 := by
        rw [div_le_iff₀ hbpos]
        nlinarith
      obtain ⟨m, G, heq, hpos, hlo, hhi⟩ := F32_div_near ma mb Ga Gb
        (pos_of_finVal_pos _ _ hapos) (pos_of_finVal_pos _ _ hbpos)
        (by
          rw [show ((2:ℚ) ^ (-126 : ℤ))
              = 1/85070591730234615865843651857942052864 from by norm_num]
          have e1 : (1/85070591730234615865843651857942052864 : ℚ) ≤ 1/8388608 := by norm_num
          linarith)
        (by
          rw [show ((2:ℚ) ^ (127 : ℤ))
              = 170141183460469231731687303715884105728 from by norm_num]
          linarith)
      have hqpos : (0:ℚ) ≤ finVal ma Ga / finVal mb Gb := by positivity
      have k3 : (1/2 : ℚ) * (finVal ma Ga / finVal mb Gb) ≤
          (1 - 1/16777216 : ℚ) * (finVal ma Ga / finVal mb Gb) :=
        mul_le_mul_of_nonneg_right (by norm_num) hqpos
      refine ⟨m, G, heq, pos_of_finVal_pos _ _ hpos, by linarith, hhi⟩
    obtain ⟨mS1, GS1, hS1eq, hS1m, hS1a, hS1b⟩ := hdiv mWW GWW mIW GIW hWWq hWWb hIWq hIWb
    obtain ⟨mS2, GS2, hS2eq, hS2m, hS2a, hS2b⟩ := hdiv mWH GWH mIH GIH hWHq hWHb hIHq hIHb
    -- the selected scale
    obtain ⟨mS, GS, hSeq, hSval, hSor⟩ := F32_if_lt_min mS1 mS2 GS1 GS2
    have hSm : 0 < mS := by
      rcases hSor with ⟨h1, _⟩ | ⟨h1, _⟩ <;> omega
    have hSa : (1/16777216 : ℚ) ≤ finVal mS GS := by
      rw [hSval]
      exact le_min hS1a hS2a
    have hS_le1 : finVal mS GS ≤ finVal mS1 GS1 := by
      rw [hSval]
      exact min_le_left _ _
    have hS_le2 : finVal mS GS ≤ finVal mS2 GS2 := by
      rw [hSval]
      exact min_le_right _ _
    -- upper bounds on the scales in closed form
    have hq1_ub : finVal mS1 GS1 ≤ (1 + 1/16777216 : ℚ) * (finVal mWW GWW / finVal mIW GIW) :=
      hS1b
    have hq_ub_num : ∀ (m : ℕ) (G : ℤ) (va vb : ℚ), (1:ℚ) ≤ va → (1:ℚ) ≤ vb →
        va ≤ 8388608 → finVal m G ≤ (1 + 1/16777216 : ℚ) * (va / vb) →
        finVal m G ≤ 16777216 := by
      intro m G va vb hva0 hvb hva hle
      have hvbpos : (0:ℚ) < vb := by linarith
      have hub : va / vb ≤ 8388608 := by
        rw [div_le_iff₀ hvbpos]
        nlinarith
      have k := mul_le_mul_of_nonneg_left hub (show (0:ℚ) ≤ 1 + 1/16777216 by norm_num)
      linarith
    have hSb_num : finVal mS GS ≤ 16777216 := by
      apply hq_ub_num mS GS (finVal mWW GWW) (finVal mIW GIW) hWWq hIWq hWWb
      linarith
    -- the two products
    have hmul : ∀ (mb : ℕ) (Gb : ℤ),
        (1:ℚ) ≤ finVal mb Gb → finVal mb Gb ≤ 8388608 → 0 < mb →
        ∃ m G, F32.mul (.fin mS GS) (.fin mb Gb) = .fin m G ∧
          finVal m G ≤ (1 + 1/16777216 : ℚ) * (finVal mS GS * finVal mb Gb) := by
      intro mb Gb hb1 hb2 hmb
      have k5 : (1/16777216 : ℚ) * 1 ≤ finVal mS GS * finVal mb Gb :=
        mul_le_mul hSa hb1 (by norm_num) (by linarith)
      have k6 : finVal mS GS * finVal mb Gb ≤ 16777216 * 8388608 :=
        mul_le_mul hSb_num hb2 (by linarith) (by norm_num)
      obtain ⟨m, G, heq, _, _, hhi⟩ := F32_mul_near mS mb GS Gb hSm hmb
        (by
          rw [show ((2:ℚ) ^ (-126 : ℤ))
              = 1/85070591730234615865843651857942052864 from by norm_num]
          have e1 : (1/85070591730234615865843651857942052864 : ℚ)
              ≤ (1/16777216 : ℚ) * 1 := by norm_num
          linarith)
        (by
          rw [show ((2:ℚ) ^ (127 : ℤ))
              = 170141183460469231731687303715884105728 from by norm_num]
          have e2 : (16777216 : ℚ) * 8388608
              < (170141183460469231731687303715884105728 : ℚ) := by norm_num
          linarith)
      exact ⟨m, G, heq, hhi⟩
    obtain ⟨mPW, GPW, hPWeq, hPWub⟩ := hmul mIW GIW hIWq hIWb (pos_of_finVal_pos _ _
      (by linarith))
    obtain ⟨mPH, GPH, hPHeq, hPHub⟩ := hmul mIH GIH hIHq hIHb (pos_of_finVal_pos _ _
      (by linarith))
    -- final bound: the product value is below the window dimension + 1
    have hfinal : ∀ (mP : ℕ) (GP : ℤ) (mA : ℕ) (GA : ℤ) (mB : ℕ) (GB : ℤ) (W B : ℕ),
        0 < B → 0 < W → W ≤ 8388607 →
        finVal mA GA = W → finVal mB GB = B →
        finVal mS GS ≤ (1 + 1/16777216 : ℚ) * (finVal mA GA / finVal mB GB) →
        finVal mP GP ≤ (1 + 1/16777216 : ℚ) * (finVal mS GS * finVal mB GB) →
        finVal mP GP < (W : ℚ) + 1 := by
      intro mP GP mA GA mB GB W B hB hW hWb hvA hvB hs hp
      have hBpos : (0:ℚ) < finVal mB GB := by
        rw [hvB]
        exact_mod_cast hB
      have hWq : (0:ℚ) < W := by exact_mod_cast hW
      have hWub : (W : ℚ) ≤ 8388607 := by exact_mod_cast hWb
      have hSpos : (0:ℚ) ≤ finVal mS GS := by linarith [hSa]
      -- scale * B ≤ (1+u) * W
      have h1 : finVal mS GS * finVal mB GB ≤
          (1 + 1/16777216 : ℚ) * (finVal mA GA / finVal mB GB) * finVal mB GB :=
        mul_le_mul_of_nonneg_right hs (le_of_lt hBpos)
      have h2 : (1 + 1/16777216 : ℚ) * (finVal mA GA / finVal mB GB) * finVal mB GB
          = (1 + 1/16777216 : ℚ) * finVal mA GA := by
        field_simp
        ring
      have h3 : finVal mP GP ≤
          (1 + 1/16777216 : ℚ) * ((1 + 1/16777216 : ℚ) * finVal mA GA) := by
        have step : (1 + 1/16777216 : ℚ) * (finVal mS GS * finVal mB GB) ≤
            (1 + 1/16777216 : ℚ) * ((1 + 1/16777216 : ℚ) * finVal mA GA) := by
          apply mul_le_mul_of_nonneg_left _ (by norm_num)
          rw [← h2]
          exact h1
        linarith
      rw [hvA] at h3
      have hc2 : (1 + 1/16777216 : ℚ) * ((1 + 1/16777216 : ℚ) * (W:ℚ))
          = (281475010265089/281474976710656 : ℚ) * W := by ring
      rw [hc2] at h3
      linarith
    constructor
    · simp only [hWWeq, hIWeq, hWHeq, hIHeq, hS1eq, hS2eq, hSeq, hPWeq, hPHeq]
      apply toU32_fin_le
      apply hfinal mPW GPW mWW GWW mIW GIW ww iw hiw hww (by omega) hWWv hIWv
      · linarith [hS_le1, hS1b]
      · exact hPWub
    · simp only [hWWeq, hIWeq, hWHeq, hIHeq, hS1eq, hS2eq, hSeq, hPWeq, hPHeq]
      apply toU32_fin_le
      apply hfinal mPH GPH mWH GWH mIH GIH wh ih hih hwh (by omega) hWHv hIHv
      · linarith [hS_le2, hS2b]
      · exact hPHub

lemma create_display_image_dims_eq (img : RgbaImage) (ww wh : ℕ) :
    (create_display_image img ww wh).1 =
        (create_display_image_dims img.width img.height ww wh).1 ∧
      (create_display_image img ww wh).2.1 =
        (create_display_image_dims img.width img.height ww wh).2 := by
  unfold create_display_image
  by_cases h : img.height < wh ∧ img.width < ww
  · rw [if_pos h]
    unfold create_display_image_dims
    rw [if_pos h]
    exact ⟨rfl, rfl⟩
  · rw [if_neg h]
    exact ⟨rfl, rfl⟩

lemma centerOffset_eq (W w' : ℕ) (hle : w' ≤ W) (hbound : W - w' ≤ 2 ^ 24) :
    centerOffset W w' = ((W - w') / 2 : ℕ) := by
  unfold centerOffset
  have hwrap : (W + 2 ^ 32 - w') % 2 ^ 32 = W - w' := by omega
  rw [hwrap]
  set d := W - w' with hd
  rcases Nat.eq_zero_or_pos d with hz | hpos
  · rw [hz]
    decide
  · have h2eq : F32.ofNat 2 = .fin (2 ^ 23) (-22) := by decide
    obtain ⟨md, Gd, hdeq, hdv⟩ := F32_ofNat_exact d hbound
    rw [h2eq, hdeq]
    have hmd : 0 < md := pos_of_finVal_pos _ _ (by
      rw [hdv]
      exact_mod_cast hpos)
    have hval2 : finVal (2 ^ 23) (-22) = 2 := by
      unfold finVal
      norm_num
    have hdvq := div_val_eq md (2 ^ 23) Gd (-22) (by norm_num)
    rw [hdv, hval2] at hdvq
    have key : ∃ m G, roundQuot md (2 ^ 23) (Gd - (-22)) = .fin m G ∧
        finVal m G = (d : ℚ) / 2 := by
      rcases Nat.even_or_odd d with ⟨c, hc⟩ | ⟨c, hc⟩
      · have hc1 : 1 ≤ c := by omega
        have hc2 : c < 2 ^ 24 := by omega
        obtain ⟨m, G, heq, hval⟩ := roundQuot_exact md (2 ^ 23) (Gd - (-22)) hmd
          (by norm_num) c 0 hc1 hc2 (by norm_num) (by norm_num)
          (by
            rw [hdvq]
            rw [show ((2:ℚ) ^ (0 : ℤ)) = 1 by norm_num, mul_one]
            have : (d : ℚ) = 2 * c := by
              rw [hc]
              push_cast
              ring
            rw [this]
            ring)
        refine ⟨m, G, heq, ?_⟩
        unfold finVal
        rw [hval]
        rw [show ((2:ℚ) ^ (0 : ℤ)) = 1 by norm_num, mul_one]
        have : (d : ℚ) = 2 * c := by
          rw [hc]
          push_cast
          ring
        rw [this]
        ring
      · have hd1 : 1 ≤ d := hpos
        have hd2 : d < 2 ^ 24 := by omega
        obtain ⟨m, G, heq, hval⟩ := roundQuot_exact md (2 ^ 23) (Gd - (-22)) hmd
          (by norm_num) d (-1) hd1 hd2 (by norm_num) (by norm_num)
          (by
            rw [hdvq]
            rw [show ((2:ℚ) ^ (-1 : ℤ)) = 1/2 by norm_num]
            ring)
        refine ⟨m, G, heq, ?_⟩
        unfold finVal
        rw [hval]
        rw [show ((2:ℚ) ^ (-1 : ℤ)) = 1/2 by norm_num]
        ring
    obtain ⟨m, G, heq, hval⟩ := key
    show (F32.div (F32.fin md Gd) (F32.fin (2 ^ 23) (-22))).toI32 = _
    have hdivred : F32.div (F32.fin md Gd) (F32.fin (2 ^ 23) (-22)) =
        roundQuot md (2 ^ 23) (Gd - (-22)) := by
      show (if (2 ^ 23 : ℕ) = 0 then (if md = 0 then F32.nan else F32.inf)
        else roundQuot md (2 ^ 23) (Gd - (-22))) = _
      rw [if_neg (by norm_num)]
    rw [hdivred, heq]
    show min (dyadicTrunc m G : ℤ) (2 ^ 31 - 1) = ((d / 2 : ℕ) : ℤ)
    rw [dyadicTrunc_eq_floor, hval]
    have hfl : ⌊(d : ℚ) / 2⌋₊ = d / 2 := by
      rw [show ((2:ℚ)) = ((2 : ℕ) : ℚ) by norm_num, Nat.floor_div_eq_div]
    rw [hfl]
    have hsmall : d / 2 ≤ 2 ^ 23 := by omega
    omega

/-- C6 (amended): for the fitted image and window of any render pass (the
same computation at initial rendering and after a resize event), if the
fitted dimensions do not exceed the window's and each margin is at most
`2^24` (so that the `f32` arithmetic on it is exact), then the draw offset
is exactly `((W - w') / 2, (H - h') / 2)` with integer truncation.  Beyond
`2^24` the `u32 as f32` conversion of the margin rounds and the offset can
differ (see the counterexample). -/
theorem c6_amended_centering (img : RgbaImage) (ww wh : ℕ)
    (hw : (renderState img ww wh).imgW ≤ ww)
    (hh : (renderState img ww wh).imgH ≤ wh)
    (bw : ww - (renderState img ww wh).imgW ≤ 2 ^ 24)
    (bh : wh - (renderState img ww wh).imgH ≤ 2 ^ 24) :
    (renderState img ww wh).offX = (((ww - (renderState img ww wh).imgW) / 2 : ℕ) : ℤ) ∧
      (renderState img ww wh).offY = (((wh - (renderState img ww wh).imgH) / 2 : ℕ) : ℤ) := by
  have h1 : (renderState img ww wh).offX =
      centerOffset ww (renderState img ww wh).imgW := rfl
  have h2 : (renderState img ww wh).offY =
      centerOffset wh (renderState img ww wh).imgH := rfl
  rw [h1, h2, centerOffset_eq _ _ hw bw, centerOffset_eq _ _ hh bh]
  exact ⟨rfl, rfl⟩

/-- Witness for C6 at the 100×80 test image in a 150×150 window: offsets
(25, 35). -/
theorem c6_witness :
    (renderState testImage 150 150).offX =
        (((150 - (renderState testImage 150 150).imgW) / 2 : ℕ) : ℤ) ∧
      (renderState testImage 150 150).offY =
        (((150 - (renderState testImage 150 150).imgH) / 2 : ℕ) : ℤ) :=
  c6_amended_centering testImage 150 150 (by decide) (by decide) (by decide) (by decide)

/-- C3 (amended): for all positive source and window dimensions below
`2^23` (where the accumulated `f32` rounding error stays below one pixel),
the dimensions returned by `create_display_image` fit the window:
`w' ≤ W` and `h' ≤ H`.  At dimensions of `2^24` and beyond this can fail
(see the counterexample). -/
theorem c3_amended_fit_within_window (img : RgbaImage) (window_width window_height : ℕ)
    (hiw : 0 < img.width) (hih : 0 < img.height)
    (hww : 0 < window_width) (hwh : 0 < window_height)
    (biw : img.width < 2 ^ 23) (bih : img.height < 2 ^ 23)
    (bww : window_width < 2 ^ 23) (bwh : window_height < 2 ^ 23) :
    (create_display_image img window_width window_height).1 ≤ window_width ∧
      (create_display_image img window_width window_height).2.1 ≤ window_height := by
  obtain ⟨h1, h2⟩ := create_display_image_dims_eq img window_width window_height
  rw [h1, h2]
  exact fit_dims_le img.width img.height window_width window_height
    hiw hih hww hwh biw bih bww bwh

/-- Witness for C3 at the 1000×500 scenario image in an 800×600 window. -/
theorem c3_witness :
    (create_display_image scenarioImage 800 600).1 ≤ 800 ∧
      (create_display_image scenarioImage 800 600).2.1 ≤ 600 :=
  c3_amended_fit_within_window scenarioImage 800 600 (by decide) (by decide) (by decide)
    (by decide) (by decide) (by decide) (by decide) (by decide)

/-- Witness for C2 at the 1000×500 source, 800×600 window input. -/
theorem c2_witness :
    ∃ qws qhs pw ph : ℚ,
      (F32.div (F32.ofNat 800) (F32.ofNat 1000)).val? = some qws ∧
      (F32.div (F32.ofNat 600) (F32.ofNat 500)).val? = some qhs ∧
      (if F32.lt (F32.div (F32.ofNat 800) (F32.ofNat 1000))
            (F32.div (F32.ofNat 600) (F32.ofNat 500))
        then F32.div (F32.ofNat 800) (F32.ofNat 1000)
        else F32.div (F32.ofNat 600) (F32.ofNat 500)).val? = some (min qws qhs) ∧
      (F32.mul (if F32.lt (F32.div (F32.ofNat 800) (F32.ofNat 1000))
            (F32.div (F32.ofNat 600) (F32.ofNat 500))
        then F32.div (F32.ofNat 800) (F32.ofNat 1000)
        else F32.div (F32.ofNat 600) (F32.ofNat 500)) (F32.ofNat 1000)).val? = some pw ∧
      (F32.mul (if F32.lt (F32.div (F32.ofNat 800) (F32.ofNat 1000))
            (F32.div (F32.ofNat 600) (F32.ofNat 500))
        then F32.div (F32.ofNat 800) (F32.ofNat 1000)
        else F32.div (F32.ofNat 600) (F32.ofNat 500)) (F32.ofNat 500)).val? = some ph ∧
      create_display_image_dims 1000 500 800 600 =
        (min ⌊pw⌋₊ (2 ^ 32 - 1), min ⌊ph⌋₊ (2 ^ 32 - 1)) :=
  c2_amended_f32_scaling 1000 500 800 600 (by decide) (by decide) (by decide) (by decide)
    (by decide) (by decide) (by decide) (by decide) (by decide)

/-- C5 (amended): when the source is strictly smaller than the target
window in both dimensions, the fitted output is the identity copy of the
source and its pixel count equals the source pixel count exactly. -/
theorem c5_amended_strict_fit_identity (img : RgbaImage) (ww wh : ℕ)
    (hw : img.width < ww) (hh : img.height < wh) :
    (create_display_image img ww wh).2.2 = img ∧
      (create_display_image img ww wh).2.2.width *
          (create_display_image img ww wh).2.2.height =
        img.width * img.height := by
  rw [create_display_image_of_lt img ww wh hh hw]
  exact ⟨rfl, rfl⟩

/-- Witness for C5 at the 100×80 test image in a 150×150 window. -/
theorem c5_witness :
    (create_display_image testImage 150 150).2.2 = testImage ∧
      (create_display_image testImage 150 150).2.2.width *
          (create_display_image testImage 150 150).2.2.height =
        testImage.width * testImage.height :=
  c5_amended_strict_fit_identity testImage 150 150 (by decide) (by decide)
